import Mathlib

/-!
Verification development for the B-Progress state-synchronization layer
(`src/services/storage.ts` and the state reducers of `src/App.tsx`).

The embedding models the browser `localStorage` as a partial map from keys
to blobs, where a blob is either a string that parses as JSON (represented
by the parsed `Json` value) or a malformed string, and models the remote
row store through the outcome of the one select/upsert each operation
performs.  Numbers occurring in application states (only
`timeSpentMinutes`) are modelled as natural numbers.
-/

namespace BProgress

/-- JSON values, as produced by `JSON.parse` on a well-formed string. -/
inductive Json where
  | null : Json
  | bool (b : Bool) : Json
  | num (n : Nat) : Json
  | str (s : String) : Json
  | arr (elems : List Json) : Json
  | obj (fields : List (String × Json)) : Json

/-- Property lookup on a parsed JSON object, first binding wins. -/
def Json.getField : List (String × Json) → String → Option Json
  | [], _ => none
  | (k2, v) :: rest, k => if k2 = k then some v else Json.getField rest k

/-- Typed read of a JSON string value. -/
def Json.asStr : Json → Option String
  | .str s => some s
  | _ => none

/-- Typed read of a JSON number value. -/
def Json.asNat : Json → Option Nat
  | .num n => some n
  | _ => none

/-- Role of a user: a closed enumeration with exactly two variants
(`Role.ADMIN` and `Role.FRIEND` in `types.ts`). -/
inductive Role where
  | admin : Role
  | friend : Role
deriving DecidableEq, Repr

/-- Modelled from the spec: `types.ts` is not under `src/`.  The spec gives
a User as identity data (id, name, username/email, role, joined timestamp). -/
structure User where
  id : String
  name : String
  email : String
  role : Role
  joined : String
deriving DecidableEq, Repr

/-- Modelled from the spec: `types.ts` is not under `src/`.  The spec says
only that `tasks` is an ordered sequence of Task templates. -/
structure Task where
  id : String
  name : String
  description : String
deriving DecidableEq, Repr

/-- Modelled from the spec and from the construction site in `src/App.tsx`
(`handleUpdateRecord`), which lists every field of a ProgressRecord. -/
structure ProgressRecord where
  id : String
  userId : String
  date : String
  tasksCompleted : List String
  timeSpentMinutes : Nat
  remarks : String
  dayJournal : String
  mood : String
deriving DecidableEq, Repr

/-- Modelled from the spec: `types.ts` is not under `src/`.  The spec says
only that messages, posts and statuses may carry an optional attachment. -/
structure Attachment where
  name : String
  mimeType : String
  dataUrl : String
deriving DecidableEq, Repr

/-- Modelled from the construction site in `src/App.tsx`
(`handleSendMessage`), which lists every field of a Message. -/
structure Message where
  id : String
  senderId : String
  receiverId : String
  content : String
  attachment : Option Attachment
  timestamp : String
deriving DecidableEq, Repr

/-- Modelled from the construction site in `src/App.tsx`
(`handlePostToGroup`), which lists every field of a group post. -/
structure Post where
  id : String
  content : String
  attachment : Option Attachment
  authorId : String
  timestamp : String
deriving DecidableEq, Repr

/-- Modelled from the construction site in `src/App.tsx`
(`handleAddGroup`), which lists every field of a Group. -/
structure Group where
  id : String
  name : String
  description : String
  memberIds : List String
  posts : List Post
deriving DecidableEq, Repr

/-- Modelled from the construction site in `src/App.tsx`
(`handleUploadStatus`), which lists every field of a StatusUpdate. -/
structure StatusUpdate where
  id : String
  userId : String
  userName : String
  content : Option String
  attachment : Option Attachment
  timestamp : String
deriving DecidableEq, Repr

/-- The single root object holding all application data, as used throughout
`src/App.tsx` and `src/services/storage.ts`. -/
structure AppState where
  users : List User
  tasks : List Task
  records : List ProgressRecord
  messages : List Message
  groups : List Group
  statuses : List StatusUpdate
  currentUser : Option User
deriving DecidableEq, Repr

/-! JSON serialization.  `saveState` persists `JSON.stringify(state)` and the
local-cache path of `loadState` reads it back with `JSON.parse`.  The
embedding works at the level of parsed JSON values: `encode*` gives the JSON
value whose stringification `saveState` writes, and `decode*` gives the typed
reading of a parsed JSON value. -/

/-- Element-wise decoding of a JSON array, failing if any element fails. -/
def decodeList (g : Json → Option α) : List Json → Option (List α)
  | [] => some []
  | j :: js => do
    let a ← g j
    let as ← decodeList g js
    some (a :: as)

/-- Serialization of a Role, stored as its string value. -/
def encodeRole : Role → Json
  | .admin => .str "admin"
  | .friend => .str "friend"

/-- Typed reading of a Role from parsed JSON. -/
def decodeRole : Json → Option Role
  | .str s =>
    if s = "admin" then some .admin
    else if s = "friend" then some .friend
    else none
  | _ => none

/-- Serialization of a User. -/
def encodeUser (u : User) : Json :=
  .obj [("id", .str u.id), ("name", .str u.name), ("email", .str u.email),
        ("role", encodeRole u.role), ("joined", .str u.joined)]

/-- Typed reading of a User from parsed JSON. -/
def decodeUser : Json → Option User
  | .obj fs => do
    let id ← (Json.getField fs "id").bind Json.asStr
    let name ← (Json.getField fs "name").bind Json.asStr
    let email ← (Json.getField fs "email").bind Json.asStr
    let role ← (Json.getField fs "role").bind decodeRole
    let joined ← (Json.getField fs "joined").bind Json.asStr
    some ⟨id, name, email, role, joined⟩
  | _ => none

/-- Serialization of a Task. -/
def encodeTask (t : Task) : Json :=
  .obj [("id", .str t.id), ("name", .str t.name),
        ("description", .str t.description)]

/-- Typed reading of a Task from parsed JSON. -/
def decodeTask : Json → Option Task
  | .obj fs => do
    let id ← (Json.getField fs "id").bind Json.asStr
    let name ← (Json.getField fs "name").bind Json.asStr
    let descr ← (Json.getField fs "description").bind Json.asStr
    some ⟨id, name, descr⟩
  | _ => none

/-- Serialization of a ProgressRecord. -/
def encodeProgressRecord (r : ProgressRecord) : Json :=
  .obj [("id", .str r.id), ("userId", .str r.userId), ("date", .str r.date),
        ("tasksCompleted", .arr (r.tasksCompleted.map Json.str)),
        ("timeSpentMinutes", .num r.timeSpentMinutes),
        ("remarks", .str r.remarks), ("dayJournal", .str r.dayJournal),
        ("mood", .str r.mood)]

/-- Typed reading of a ProgressRecord from parsed JSON. -/
def decodeProgressRecord : Json → Option ProgressRecord
  | .obj fs => do
    let id ← (Json.getField fs "id").bind Json.asStr
    let userId ← (Json.getField fs "userId").bind Json.asStr
    let date ← (Json.getField fs "date").bind Json.asStr
    let tc ← (Json.getField fs "tasksCompleted").bind fun j =>
      match j with
      | .arr es => decodeList Json.asStr es
      | _ => none
    let tsm ← (Json.getField fs "timeSpentMinutes").bind Json.asNat
    let remarks ← (Json.getField fs "remarks").bind Json.asStr
    let dayJournal ← (Json.getField fs "dayJournal").bind Json.asStr
    let mood ← (Json.getField fs "mood").bind Json.asStr
    some ⟨id, userId, date, tc, tsm, remarks, dayJournal, mood⟩
  | _ => none

/-- Serialization of an Attachment. -/
def encodeAttachment (a : Attachment) : Json :=
  .obj [("name", .str a.name), ("mimeType", .str a.mimeType),
        ("dataUrl", .str a.dataUrl)]

/-- Typed reading of an Attachment from parsed JSON. -/
def decodeAttachment : Json → Option Attachment
  | .obj fs => do
    let name ← (Json.getField fs "name").bind Json.asStr
    let mimeType ← (Json.getField fs "mimeType").bind Json.asStr
    let dataUrl ← (Json.getField fs "dataUrl").bind Json.asStr
    some ⟨name, mimeType, dataUrl⟩
  | _ => none

/-- Serialization of an optional field: `JSON.stringify` drops properties
whose value is `undefined`, so an absent optional field produces no binding. -/
def encodeOptField (k : String) (enc : α → Json) : Option α → List (String × Json)
  | some a => [(k, enc a)]
  | none => []

/-- Typed reading of an optional field: an absent binding reads as `none`. -/
def decodeOptField (fs : List (String × Json)) (k : String) (dec : Json → Option α) :
    Option (Option α) :=
  match Json.getField fs k with
  | none => some none
  | some j => (dec j).map some

/-- Serialization of a Message. -/
def encodeMessage (m : Message) : Json :=
  .obj ([("id", .str m.id), ("senderId", .str m.senderId),
         ("receiverId", .str m.receiverId), ("content", .str m.content)]
        ++ encodeOptField "attachment" encodeAttachment m.attachment
        ++ [("timestamp", .str m.timestamp)])

/-- Typed reading of a Message from parsed JSON. -/
def decodeMessage : Json → Option Message
  | .obj fs => do
    let id ← (Json.getField fs "id").bind Json.asStr
    let senderId ← (Json.getField fs "senderId").bind Json.asStr
    let receiverId ← (Json.getField fs "receiverId").bind Json.asStr
    let content ← (Json.getField fs "content").bind Json.asStr
    let attachment ← decodeOptField fs "attachment" decodeAttachment
    let timestamp ← (Json.getField fs "timestamp").bind Json.asStr
    some ⟨id, senderId, receiverId, content, attachment, timestamp⟩
  | _ => none

/-- Serialization of a group Post. -/
def encodePost (p : Post) : Json :=
  .obj ([("id", .str p.id), ("content", .str p.content)]
        ++ encodeOptField "attachment" encodeAttachment p.attachment
        ++ [("authorId", .str p.authorId), ("timestamp", .str p.timestamp)])

/-- Typed reading of a group Post from parsed JSON. -/
def decodePost : Json → Option Post
  | .obj fs => do
    let id ← (Json.getField fs "id").bind Json.asStr
    let content ← (Json.getField fs "content").bind Json.asStr
    let attachment ← decodeOptField fs "attachment" decodeAttachment
    let authorId ← (Json.getField fs "authorId").bind Json.asStr
    let timestamp ← (Json.getField fs "timestamp").bind Json.asStr
    some ⟨id, content, attachment, authorId, timestamp⟩
  | _ => none

/-- Serialization of a Group. -/
def encodeGroup (g : Group) : Json :=
  .obj [("id", .str g.id), ("name", .str g.name),
        ("description", .str g.description),
        ("memberIds", .arr (g.memberIds.map Json.str)),
        ("posts", .arr (g.posts.map encodePost))]

/-- Typed reading of a Group from parsed JSON. -/
def decodeGroup : Json → Option Group
  | .obj fs => do
    let id ← (Json.getField fs "id").bind Json.asStr
    let name ← (Json.getField fs "name").bind Json.asStr
    let descr ← (Json.getField fs "description").bind Json.asStr
    let memberIds ← (Json.getField fs "memberIds").bind fun j =>
      match j with
      | .arr es => decodeList Json.asStr es
      | _ => none
    let posts ← (Json.getField fs "posts").bind fun j =>
      match j with
      | .arr es => decodeList decodePost es
      | _ => none
    some ⟨id, name, descr, memberIds, posts⟩
  | _ => none

/-- Serialization of a StatusUpdate. -/
def encodeStatusUpdate (s : StatusUpdate) : Json :=
  .obj ([("id", .str s.id), ("userId", .str s.userId),
         ("userName", .str s.userName)]
        ++ encodeOptField "content" Json.str s.content
        ++ encodeOptField "attachment" encodeAttachment s.attachment
        ++ [("timestamp", .str s.timestamp)])

/-- Typed reading of a StatusUpdate from parsed JSON. -/
def decodeStatusUpdate : Json → Option StatusUpdate
  | .obj fs => do
    let id ← (Json.getField fs "id").bind Json.asStr
    let userId ← (Json.getField fs "userId").bind Json.asStr
    let userName ← (Json.getField fs "userName").bind Json.asStr
    let content ← decodeOptField fs "content" Json.asStr
    let attachment ← decodeOptField fs "attachment" decodeAttachment
    let timestamp ← (Json.getField fs "timestamp").bind Json.asStr
    some ⟨id, userId, userName, content, attachment, timestamp⟩
  | _ => none

/-- Serialization of the whole AppState, the value whose stringification
`saveState` writes.  A null `currentUser` is kept as an explicit JSON null,
exactly as `JSON.stringify` keeps a null property. -/
def encodeAppState (s : AppState) : Json :=
  .obj [("users", .arr (s.users.map encodeUser)),
        ("tasks", .arr (s.tasks.map encodeTask)),
        ("records", .arr (s.records.map encodeProgressRecord)),
        ("messages", .arr (s.messages.map encodeMessage)),
        ("groups", .arr (s.groups.map encodeGroup)),
        ("statuses", .arr (s.statuses.map encodeStatusUpdate)),
        ("currentUser", match s.currentUser with
                        | some u => encodeUser u
                        | none => .null)]

/-- Typed reading of an AppState from parsed JSON. -/
def decodeAppState : Json → Option AppState
  | .obj fs => do
    let users ← (Json.getField fs "users").bind fun j =>
      match j with
      | .arr es => decodeList decodeUser es
      | _ => none
    let tasks ← (Json.getField fs "tasks").bind fun j =>
      match j with
      | .arr es => decodeList decodeTask es
      | _ => none
    let records ← (Json.getField fs "records").bind fun j =>
      match j with
      | .arr es => decodeList decodeProgressRecord es
      | _ => none
    let messages ← (Json.getField fs "messages").bind fun j =>
      match j with
      | .arr es => decodeList decodeMessage es
      | _ => none
    let groups ← (Json.getField fs "groups").bind fun j =>
      match j with
      | .arr es => decodeList decodeGroup es
      | _ => none
    let statuses ← (Json.getField fs "statuses").bind fun j =>
      match j with
      | .arr es => decodeList decodeStatusUpdate es
      | _ => none
    let currentUser ← match Json.getField fs "currentUser" with
      | some .null => some none
      | some j => (decodeUser j).map some
      | none => some none
    some ⟨users, tasks, records, messages, groups, statuses, currentUser⟩
  | _ => none

/-! Round-trip lemmas: decoding the serialization of a value recovers it. -/

theorem decodeList_map (f : α → Json) (g : Json → Option α)
    (h : ∀ a, g (f a) = some a) :
    ∀ l : List α, decodeList g (l.map f) = some l := by
  intro l
  induction l with
  | nil => rfl
  | cons a t ih => simp [decodeList, h, ih]

theorem decodeList_str (l : List String) :
    decodeList Json.asStr (l.map Json.str) = some l :=
  decodeList_map Json.str Json.asStr (fun _ => rfl) l

theorem decodeRole_encodeRole (r : Role) : decodeRole (encodeRole r) = some r := by
  cases r <;> rfl

theorem decodeUser_encodeUser (u : User) : decodeUser (encodeUser u) = some u := by
  cases u with
  | mk id name email role joined => cases role <;> rfl

theorem decodeTask_encodeTask (t : Task) : decodeTask (encodeTask t) = some t := by
  cases t; rfl

theorem decodeAttachment_encodeAttachment (a : Attachment) :
    decodeAttachment (encodeAttachment a) = some a := by
  cases a; rfl

theorem decodeProgressRecord_encodeProgressRecord (r : ProgressRecord) :
    decodeProgressRecord (encodeProgressRecord r) = some r := by
  cases r with
  | mk id userId date tc tsm remarks dayJournal mood =>
    simp [encodeProgressRecord, decodeProgressRecord, Json.getField, Json.asStr,
          Json.asNat, decodeList_str]

theorem decodeMessage_encodeMessage (m : Message) :
    decodeMessage (encodeMessage m) = some m := by
  cases m with
  | mk id senderId receiverId content attachment timestamp =>
    cases attachment <;> rfl

theorem decodePost_encodePost (p : Post) : decodePost (encodePost p) = some p := by
  cases p with
  | mk id content attachment authorId timestamp => cases attachment <;> rfl

theorem decodeList_post (l : List Post) :
    decodeList decodePost (l.map encodePost) = some l :=
  decodeList_map _ _ decodePost_encodePost l

theorem decodeGroup_encodeGroup (g : Group) :
    decodeGroup (encodeGroup g) = some g := by
  cases g with
  | mk id name descr memberIds posts =>
    simp [encodeGroup, decodeGroup, Json.getField, Json.asStr,
          decodeList_str, decodeList_post]

theorem decodeStatusUpdate_encodeStatusUpdate (s : StatusUpdate) :
    decodeStatusUpdate (encodeStatusUpdate s) = some s := by
  cases s with
  | mk id userId userName content attachment timestamp =>
    cases content <;> cases attachment <;> rfl

theorem decodeList_user (l : List User) :
    decodeList decodeUser (l.map encodeUser) = some l :=
  decodeList_map _ _ decodeUser_encodeUser l

theorem decodeList_task (l : List Task) :
    decodeList decodeTask (l.map encodeTask) = some l :=
  decodeList_map _ _ decodeTask_encodeTask l

theorem decodeList_record (l : List ProgressRecord) :
    decodeList decodeProgressRecord (l.map encodeProgressRecord) = some l :=
  decodeList_map _ _ decodeProgressRecord_encodeProgressRecord l

theorem decodeList_message (l : List Message) :
    decodeList decodeMessage (l.map encodeMessage) = some l :=
  decodeList_map _ _ decodeMessage_encodeMessage l

theorem decodeList_group (l : List Group) :
    decodeList decodeGroup (l.map encodeGroup) = some l :=
  decodeList_map _ _ decodeGroup_encodeGroup l

theorem decodeList_status (l : List StatusUpdate) :
    decodeList decodeStatusUpdate (l.map encodeStatusUpdate) = some l :=
  decodeList_map _ _ decodeStatusUpdate_encodeStatusUpdate l

theorem decodeUser_obj (id name email : String) (role : Role) (joined : String) :
    decodeUser (Json.obj [("id", .str id), ("name", .str name),
      ("email", .str email), ("role", encodeRole role), ("joined", .str joined)])
      = some ⟨id, name, email, role, joined⟩ := by
  cases role <;> rfl

theorem decodeAppState_encodeAppState (s : AppState) :
    decodeAppState (encodeAppState s) = some s := by
  cases s with
  | mk users tasks records messages groups statuses currentUser =>
    cases currentUser with
    | none =>
      simp [encodeAppState, decodeAppState, Json.getField,
            decodeList_user, decodeList_task, decodeList_record,
            decodeList_message, decodeList_group, decodeList_status]
    | some u =>
      simp [encodeAppState, decodeAppState, Json.getField,
            decodeList_user, decodeList_task, decodeList_record,
            decodeList_message, decodeList_group, decodeList_status,
            encodeUser, decodeUser_obj]

/-! Embedding of `src/services/storage.ts`. -/

/-- Modelled from the spec: `constants.ts` is not under `src/`.  The spec says
the local-cache key is a fixed string plus the user id; no theorem below
depends on the concrete value. -/
def STORAGE_KEY : String := "b-progress-state"

/-- Modelled from the spec: `constants.ts` is not under `src/`.  The spec says
the default state carries a seeded user list; `src/App.tsx` routes friend
messages to the id "admin-1".  No theorem below depends on the concrete
elements. -/
def INITIAL_USERS : List User :=
  [⟨"admin-1", "Supporter", "supporter@example.com", Role.admin, "2024-01-01"⟩]

/-- Modelled from the spec: `constants.ts` is not under `src/`.  The spec says
the default state carries a seeded task-template list; no theorem below
depends on the concrete elements. -/
def INITIAL_TASKS : List Task :=
  [⟨"task-1", "Daily practice", "Log today and mark the tasks you completed"⟩]

/-- Value stored under one `localStorage` key: either a string that
`JSON.parse` accepts, represented by the parsed value, or a malformed string
on which `JSON.parse` throws. -/
inductive Blob where
  | json (j : Json) : Blob
  | malformed : Blob

/-- The browser `localStorage`, a map from string keys to stored strings. -/
def LocalStore := String → Option Blob

/-- Reading a key, as `localStorage.getItem`. -/
def LocalStore.getItem (st : LocalStore) (k : String) : Option Blob := st k

/-- Writing a key, as `localStorage.setItem`. -/
def LocalStore.setItem (st : LocalStore) (k : String) (v : Blob) : LocalStore :=
  fun q => if q = k then some v else st q

/-- Deleting a key, as `localStorage.removeItem`. -/
def LocalStore.removeItem (st : LocalStore) (k : String) : LocalStore :=
  fun q => if q = k then none else st q

/-- A store with no keys set. -/
def emptyStore : LocalStore := fun _ => none

/-- The per-user local-cache key `STORAGE_KEY_userId` used by `loadState`
and `saveState`. -/
def userKey (userId : String) : String := STORAGE_KEY ++ "_" ++ userId

/-- Outcome of the remote single-row select issued by `loadState`: the call
may throw or report an error, find no row, or return a row whose
`state_json` column may be null. -/
inductive RemoteSelect where
  | failed : RemoteSelect
  | noRow : RemoteSelect
  | row (state_json : Option AppState) : RemoteSelect

/-- The hand-built default state returned by `loadState` as its absolute
fallback; `loadMasterState` builds the identical literal as its
`defaultState`. -/
def defaultState : AppState :=
  { users := INITIAL_USERS
    tasks := INITIAL_TASKS
    records := []
    messages := []
    groups := []
    statuses := []
    currentUser := none }

/-- Embedding of `DataService.loadState` (`src/services/storage.ts`).
The remote tier runs only when the client is configured (`cloud`) and the
userId is truthy; a returned row with non-null `state_json` is returned
as-is, and every other remote outcome (caught exception, error result, no
row, null payload) falls through to the local cache.  The local string is
parsed by `JSON.parse`; the source returns the parsed value without shape
validation, so a parsed value outside the image of `encodeAppState` has no
typed representation and the embedding maps it, like a parse failure, to the
default — no claim below distinguishes that case. -/
def loadState (cloud : Bool) (remote : String → RemoteSelect)
    (store : LocalStore) (userId : String) : AppState :=
  let fromLocal :=
    match store.getItem (userKey userId) with
    | some (Blob.json j) =>
      match decodeAppState j with
      | some s => s
      | none => defaultState
    | some Blob.malformed => defaultState
    | none => defaultState
  if cloud ∧ userId ≠ "" then
    match remote userId with
    | RemoteSelect.row (some s) => s
    | _ => fromLocal
  else fromLocal

/-- Embedding of `DataService.saveState` (`src/services/storage.ts`).
Returns the local store after the call together with the outcome of the
remote upsert when one was attempted (`none` when the client is not
configured or the userId is falsy); a failed upsert is caught and logged.
The `upsertResult` argument supplies the outcome the remote would produce,
so theorems can quantify over it. -/
def saveState (cloud : Bool) (upsertResult : Bool) (store : LocalStore)
    (userId : String) (s : AppState) : LocalStore × Option Bool :=
  if userId = "" then (store, none)
  else
    let store2 := store.setItem (userKey userId) (Blob.json (encodeAppState s))
    if cloud then (store2, some upsertResult) else (store2, none)

/-- Embedding of `DataService.signOut` (`src/services/storage.ts`): after the
remote auth sign-out, removes the unsuffixed `STORAGE_KEY` from the local
store. -/
def signOut (store : LocalStore) : LocalStore :=
  store.removeItem STORAGE_KEY

/-- Outcome of the all-rows select issued by `loadMasterState`: the call may
throw or report an error or null data, or return the list of rows, each
carrying a possibly-null `state_json`. -/
inductive MasterSelect where
  | failed : MasterSelect
  | rows (rows : List (Option AppState)) : MasterSelect

/-- One step of the JavaScript `Map` construction
`new Map(list.map(g => [g.id, g]))`: setting a key that is already present
overwrites its value in place, and a new key is appended. -/
def mapUpsert (m : List (String × Group)) (k : String) (v : Group) :
    List (String × Group) :=
  if m.any (fun p => p.1 = k) then
    m.map (fun p => if p.1 = k then (k, v) else p)
  else m ++ [(k, v)]

/-- Embedding of
`Array.from(new Map(list.map(g => [g.id, g])).values())`: keys keep their
first-insertion order and each key holds the last value set for it. -/
def dedupGroups (gs : List Group) : List Group :=
  (gs.foldl (fun m g => mapUpsert m g.id g) []).map (fun p => p.2)

/-- Embedding of the reduce step of `DataService.loadMasterState`: a row with
a null payload is returned unchanged (`if (!userState) return acc`), and
otherwise the accumulator keeps `tasks` and `currentUser` (object spread)
while appending the embedded `currentUser`, concatenating `records`,
`messages` and `statuses`, and deduplicating `groups` by id. -/
def mergeRow (acc : AppState) (row : Option AppState) : AppState :=
  match row with
  | none => acc
  | some userState =>
    { acc with
      users := acc.users ++ (match userState.currentUser with
                             | some u => [u]
                             | none => [])
      records := acc.records ++ userState.records
      messages := acc.messages ++ userState.messages
      statuses := acc.statuses ++ userState.statuses
      groups := dedupGroups (acc.groups ++ userState.groups) }

/-- Embedding of `DataService.loadMasterState` (`src/services/storage.ts`):
with the cloud disabled, or on a failed select (error, null data, or a
thrown exception), the default state is returned; otherwise the rows are
folded with `mergeRow` starting from the default state. -/
def loadMasterState (cloud : Bool) (sel : MasterSelect) : AppState :=
  if cloud then
    match sel with
    | MasterSelect.failed => defaultState
    | MasterSelect.rows rs => rs.foldl mergeRow defaultState
  else defaultState

/-! Embedding of the state reducers of `src/App.tsx`. -/

/-- The `Partial<ProgressRecord>` argument of `handleUpdateRecord`.  The
claims concern updates that carry a userId and a date, so those two fields
are required here; every other field is present or absent. -/
structure RecordUpdate where
  id : Option String
  userId : String
  date : String
  tasksCompleted : Option (List String)
  timeSpentMinutes : Option Nat
  remarks : Option String
  dayJournal : Option String
  mood : Option String
deriving DecidableEq, Repr

/-- Object spread `{ ...records[existingIdx], ...recordUpdate }`: a field
present in the update overwrites, an absent field keeps the old value. -/
def applyUpdate (r : ProgressRecord) (u : RecordUpdate) : ProgressRecord :=
  { id := u.id.getD r.id
    userId := u.userId
    date := u.date
    tasksCompleted := u.tasksCompleted.getD r.tasksCompleted
    timeSpentMinutes := u.timeSpentMinutes.getD r.timeSpentMinutes
    remarks := u.remarks.getD r.remarks
    dayJournal := u.dayJournal.getD r.dayJournal
    mood := u.mood.getD r.mood }

/-- The record built by the insert branch of `handleUpdateRecord`; `freshId`
stands for the random id the source generates, and the `||`-defaults of the
source map absent fields to the empty list, zero and empty strings. -/
def newRecord (freshId : String) (u : RecordUpdate) : ProgressRecord :=
  { id := freshId
    userId := u.userId
    date := u.date
    tasksCompleted := u.tasksCompleted.getD []
    timeSpentMinutes := u.timeSpentMinutes.getD 0
    remarks := u.remarks.getD ""
    dayJournal := u.dayJournal.getD ""
    mood := u.mood.getD "" }

/-- The find-or-create-then-replace walk of `handleUpdateRecord`:
`findIndex` locates the first record matching on (userId, date) and that
slot is replaced in place; with no match a fresh record is pushed at the
end. -/
def updateRecords (freshId : String) (u : RecordUpdate) :
    List ProgressRecord → List ProgressRecord
  | [] => [newRecord freshId u]
  | r :: rs =>
    if r.userId = u.userId ∧ r.date = u.date then applyUpdate r u :: rs
    else r :: updateRecords freshId u rs

/-- Embedding of `handleUpdateRecord` (`src/App.tsx`): only the `records`
field of the state changes. -/
def handleUpdateRecord (freshId : String) (u : RecordUpdate)
    (prev : AppState) : AppState :=
  { prev with records := updateRecords freshId u prev.records }

/-- Embedding of `handleSendMessage` (`src/App.tsx`): with no signed-in user,
or with content that trims to the empty string and no attachment, the state
is returned unchanged; otherwise one message from the current user to
`receiverId` is appended.  `freshId` and `timestamp` stand for the random id
and the clock reading the source generates.  `String.trim` stands for the
JavaScript trim; the claims do not depend on the exact whitespace set. -/
def handleSendMessage (freshId timestamp receiverId content : String)
    (attachment : Option Attachment) (prev : AppState) : AppState :=
  match prev.currentUser with
  | none => prev
  | some cu =>
    if content.trim = "" ∧ attachment = none then prev
    else
      { prev with
        messages := prev.messages ++
          [{ id := freshId, senderId := cu.id, receiverId := receiverId,
             content := content, attachment := attachment,
             timestamp := timestamp }] }

/-- The (userId, date) key under which `records` entries are unique. -/
def recordKey (r : ProgressRecord) : String × String := (r.userId, r.date)

/-! Helper lemmas shared by the claim theorems. -/

theorem userKey_ne_STORAGE_KEY (u : String) : userKey u ≠ STORAGE_KEY := by
  intro h
  have hl := congrArg String.length h
  rw [userKey, String.length_append, String.length_append] at hl
  have h1 : STORAGE_KEY.length = 16 := by decide
  have h2 : ("_" : String).length = 1 := by decide
  omega

/-! Claim theorems. -/

/-- C1: when the remote store is configured, the userId is non-empty, and
the remote select for that userId returns a row with a non-null
`state_json` payload, `loadState` returns exactly that payload, for every
local cache and with no version or timestamp comparison. -/
theorem claim1_loadState_remote_wins (remote : String → RemoteSelect)
    (store : LocalStore) (userId : String) (payload : AppState)
    (huser : userId ≠ "") (hremote : remote userId = RemoteSelect.row (some payload)) :
    loadState true remote store userId = payload := by
  simp [loadState, huser, hremote]

/-- Witness for C1 at a concrete remote response. -/
theorem claim1_witness :
    loadState true (fun _ => RemoteSelect.row (some defaultState)) emptyStore "u1"
      = defaultState :=
  claim1_loadState_remote_wins _ emptyStore "u1" defaultState (by decide) rfl

/-- C2: under every combination of remote-not-configured (or falsy userId),
remote failure or empty remote result, and local-cache absence or parse
failure, `loadState` returns the hand-built default AppState; being a total
function of the embedding, it throws nothing. -/
theorem claim2_loadState_total_fallback (cloud : Bool)
    (remote : String → RemoteSelect) (store : LocalStore) (userId : String)
    (h1 : cloud = false ∨ userId = "" ∨ ∀ p, remote userId ≠ RemoteSelect.row (some p))
    (h2 : store.getItem (userKey userId) = none ∨
          store.getItem (userKey userId) = some Blob.malformed) :
    loadState cloud remote store userId = defaultState := by
  have hl : (match store.getItem (userKey userId) with
      | some (Blob.json j) =>
        match decodeAppState j with
        | some s => s
        | none => defaultState
      | some Blob.malformed => defaultState
      | none => defaultState) = defaultState := by
    rcases h2 with h2 | h2 <;> rw [h2]
  unfold loadState
  by_cases hc : (cloud : Prop) ∧ userId ≠ ""
  · rw [if_pos hc]
    rcases h1 with h1 | h1 | h1
    · exact absurd hc.1 (by simp [h1])
    · exact absurd h1 hc.2
    · cases hr : remote userId with
      | failed => exact hl
      | noRow => exact hl
      | row osj =>
        cases osj with
        | none => exact hl
        | some p => exact absurd hr (h1 p)
  · rw [if_neg hc]
    exact hl

/-- Witness for C2: remote disabled, empty local cache. -/
theorem claim2_witness :
    loadState false (fun _ => RemoteSelect.failed) emptyStore "u1" = defaultState :=
  claim2_loadState_total_fallback false _ emptyStore "u1" (Or.inl rfl) (Or.inl rfl)

/-- C3 counterexample: the claim quantifies over every userId, but at the
falsy userId `""` the source returns before touching the local cache
(`if (!userId) return`), so nothing is written under the per-user key. -/
theorem claim3_counterexample :
    (saveState true true emptyStore "" defaultState).1.getItem (userKey "") = none ∧
    (saveState true true emptyStore "" defaultState).2 = none := by
  constructor <;> rfl

/-- C3 as amended: for every non-empty userId, `saveState` writes the
JSON-serialized state to the local cache under the per-user key, for every
remote configuration and every remote upsert outcome. -/
theorem claim3_saveState_local_write (cloud upsertResult : Bool)
    (store : LocalStore) (userId : String) (s : AppState)
    (huser : userId ≠ "") :
    ((saveState cloud upsertResult store userId s).1).getItem (userKey userId)
      = some (Blob.json (encodeAppState s)) := by
  cases cloud <;>
    simp [saveState, huser, LocalStore.setItem, LocalStore.getItem]

/-- Witness for C3 as amended: remote disabled and a failing upsert outcome
still leave the serialized state in the local cache. -/
theorem claim3_witness :
    ((saveState false false emptyStore "u1" defaultState).1).getItem (userKey "u1")
      = some (Blob.json (encodeAppState defaultState)) :=
  claim3_saveState_local_write false false emptyStore "u1" defaultState (by decide)

/-- C10: `signOut` removes only the unsuffixed global `STORAGE_KEY`; every
per-user key written by `saveState` is untouched, so every cached per-user
state survives sign-out. -/
theorem claim10_signOut_preserves_user_keys (store : LocalStore) (userId : String) :
    (signOut store).getItem (userKey userId) = store.getItem (userKey userId) ∧
    (signOut store).getItem STORAGE_KEY = none := by
  constructor
  · simp [signOut, LocalStore.removeItem, LocalStore.getItem,
          userKey_ne_STORAGE_KEY userId]
  · simp [signOut, LocalStore.removeItem, LocalStore.getItem]

/-! Lemmas on the admin aggregation (`loadMasterState`). -/

theorem mapUpsert_keys_nodup (m : List (String × Group)) (k : String) (v : Group)
    (hm : (m.map Prod.fst).Nodup) : ((mapUpsert m k v).map Prod.fst).Nodup := by
  unfold mapUpsert
  by_cases h : m.any (fun p => p.1 = k)
  · have hfst : ∀ p : String × Group, (if p.1 = k then (k, v) else p).1 = p.1 := by
      intro p
      by_cases hp : p.1 = k <;> simp [hp]
    simp only [if_pos h, List.map_map]
    have : (Prod.fst ∘ fun p : String × Group => if p.1 = k then (k, v) else p)
        = Prod.fst := by
      funext p
      exact hfst p
    rw [this]
    exact hm
  · rw [if_neg h]
    have hk : k ∉ m.map Prod.fst := by
      intro hmem
      rcases List.mem_map.mp hmem with ⟨p, hp, hpk⟩
      exact h (List.any_eq_true.mpr ⟨p, hp, by simp [hpk]⟩)
    simp [List.nodup_append, hm, hk]

theorem foldl_mapUpsert_keys_nodup (gs : List Group) :
    ∀ m : List (String × Group), (m.map Prod.fst).Nodup →
      (((gs.foldl (fun m g => mapUpsert m g.id g) m)).map Prod.fst).Nodup := by
  induction gs with
  | nil => intro m hm; exact hm
  | cons g gs ih =>
    intro m hm
    exact ih _ (mapUpsert_keys_nodup m g.id g hm)

theorem mapUpsert_keyed (m : List (String × Group)) (k : String) (v : Group)
    (hv : v.id = k) (hm : ∀ p ∈ m, p.2.id = p.1) :
    ∀ p ∈ mapUpsert m k v, p.2.id = p.1 := by
  unfold mapUpsert
  by_cases h : m.any (fun p => p.1 = k)
  · rw [if_pos h]
    intro p hp
    rcases List.mem_map.mp hp with ⟨q, hq, hqe⟩
    by_cases hqk : q.1 = k
    · rw [if_pos hqk] at hqe
      rw [← hqe]
      exact hv
    · rw [if_neg hqk] at hqe
      rw [← hqe]
      exact hm q hq
  · rw [if_neg h]
    intro p hp
    rcases List.mem_append.mp hp with hp | hp
    · exact hm p hp
    · rcases List.mem_singleton.mp hp with rfl
      exact hv

theorem foldl_mapUpsert_keyed (gs : List Group) :
    ∀ m : List (String × Group), (∀ p ∈ m, p.2.id = p.1) →
      ∀ p ∈ gs.foldl (fun m g => mapUpsert m g.id g) m, p.2.id = p.1 := by
  induction gs with
  | nil => intro m hm; exact hm
  | cons g gs ih =>
    intro m hm
    exact ih _ (mapUpsert_keyed m g.id g rfl hm)

theorem dedupGroups_ids_nodup (gs : List Group) :
    ((dedupGroups gs).map Group.id).Nodup := by
  unfold dedupGroups
  have hkeyed := foldl_mapUpsert_keyed gs [] (by intro p hp; cases hp)
  have hnodup := foldl_mapUpsert_keys_nodup gs [] (by simp)
  set m := gs.foldl (fun m g => mapUpsert m g.id g) [] with hm
  have : (m.map (fun p => p.2)).map Group.id = m.map Prod.fst := by
    rw [List.map_map]
    exact List.map_congr_left (fun p hp => hkeyed p hp)
  rw [this]
  exact hnodup

theorem foldl_mergeRow_groups_nodup (rows : List (Option AppState)) :
    ∀ acc : AppState, (acc.groups.map Group.id).Nodup →
      (((rows.foldl mergeRow acc).groups.map Group.id)).Nodup := by
  induction rows with
  | nil => intro acc hacc; exact hacc
  | cons r rows ih =>
    intro acc hacc
    cases r with
    | none => exact ih acc hacc
    | some st => exact ih _ (dedupGroups_ids_nodup _)

/-- A state whose only populated field is `groups`, used to phrase the
two-row aggregation scenario. -/
def stateWithGroups (gs : List Group) : AppState :=
  { users := [], tasks := [], records := [], messages := [], groups := gs,
    statuses := [], currentUser := none }

/-- C4: the groups of the aggregated master state hold at most one group per
id, and when two rows carry a group with the same id the merged output keeps
exactly one entry for that id, equal to the version from the later row. -/
theorem claim4_master_groups_dedup :
    (∀ rows : List (Option AppState),
      (((loadMasterState true (MasterSelect.rows rows)).groups.map Group.id)).Nodup) ∧
    (∀ gA gB : Group, gA.id = gB.id →
      (loadMasterState true (MasterSelect.rows
          [some (stateWithGroups [gA]), some (stateWithGroups [gB])])).groups = [gB]) := by
  constructor
  · intro rows
    exact foldl_mergeRow_groups_nodup rows defaultState (by simp [defaultState])
  · intro gA gB h
    simp [loadMasterState, mergeRow, stateWithGroups, defaultState,
          dedupGroups, mapUpsert, h]

/-- Witness for C4: two distinct groups sharing the id g1. -/
theorem claim4_witness :
    (loadMasterState true (MasterSelect.rows
        [some (stateWithGroups [⟨"g1", "A", "", [], []⟩]),
         some (stateWithGroups [⟨"g1", "B", "", [], []⟩])])).groups
      = [⟨"g1", "B", "", [], []⟩] :=
  claim4_master_groups_dedup.2 ⟨"g1", "A", "", [], []⟩ ⟨"g1", "B", "", [], []⟩ rfl

theorem foldl_mergeRow_users_tasks (rows : List (Option AppState)) :
    ∀ acc : AppState,
      (rows.foldl mergeRow acc).users
          = acc.users ++ rows.filterMap (fun r => r.bind AppState.currentUser) ∧
      (rows.foldl mergeRow acc).tasks = acc.tasks := by
  induction rows with
  | nil => intro acc; simp
  | cons r rows ih =>
    intro acc
    cases r with
    | none => simpa [mergeRow] using ih acc
    | some st =>
      have h := ih (mergeRow acc (some st))
      cases hcu : st.currentUser with
      | none =>
        simpa [mergeRow, hcu, List.filterMap_cons] using h
      | some u =>
        constructor
        · rw [List.foldl_cons, h.1]
          simp [mergeRow, hcu, List.filterMap_cons, List.append_assoc]
        · rw [List.foldl_cons, h.2]
          simp [mergeRow]

/-- C5: the users of the aggregated master state are the seeded default
users followed, per row in iteration order, by only that row's embedded
currentUser when it is non-null, and its tasks are the seeded default tasks
whatever the rows hold. -/
theorem claim5_master_users_tasks (rows : List (Option AppState)) :
    (loadMasterState true (MasterSelect.rows rows)).users
        = INITIAL_USERS ++ rows.filterMap (fun r => r.bind AppState.currentUser) ∧
    (loadMasterState true (MasterSelect.rows rows)).tasks = INITIAL_TASKS := by
  have h := foldl_mergeRow_users_tasks rows defaultState
  simpa [loadMasterState, defaultState] using h

theorem foldl_mergeRow_skip_none (rows : List (Option AppState)) :
    ∀ acc : AppState,
      rows.foldl mergeRow acc = (rows.filter Option.isSome).foldl mergeRow acc := by
  induction rows with
  | nil => intro acc; rfl
  | cons r rows ih =>
    intro acc
    cases r with
    | none => simpa [mergeRow] using ih acc
    | some st => simpa using ih (mergeRow acc (some st))

/-- C7: a row with a null state payload contributes nothing to the
aggregation (dropping all such rows leaves the result unchanged), and a
failed or empty select yields the default state rather than partial data. -/
theorem claim7_master_skips_null_rows :
    (∀ rows : List (Option AppState),
      loadMasterState true (MasterSelect.rows rows)
        = loadMasterState true (MasterSelect.rows (rows.filter Option.isSome))) ∧
    loadMasterState true MasterSelect.failed = defaultState := by
  constructor
  · intro rows
    simp [loadMasterState, foldl_mergeRow_skip_none rows defaultState]
  · rfl

/-! Lemmas on the record reducer (`handleUpdateRecord`). -/

theorem recordKey_applyUpdate (r : ProgressRecord) (u : RecordUpdate) :
    recordKey (applyUpdate r u) = (u.userId, u.date) := rfl

theorem recordKey_newRecord (freshId : String) (u : RecordUpdate) :
    recordKey (newRecord freshId u) = (u.userId, u.date) := rfl

theorem updateRecords_of_mem (freshId : String) (u : RecordUpdate) :
    ∀ l : List ProgressRecord, (∃ r ∈ l, recordKey r = (u.userId, u.date)) →
      (updateRecords freshId u l).map recordKey = l.map recordKey := by
  intro l
  induction l with
  | nil => rintro ⟨r, hr, _⟩; cases hr
  | cons r rs ih =>
    rintro ⟨r', hr', hk⟩
    by_cases hc : r.userId = u.userId ∧ r.date = u.date
    · have hkey : recordKey r = (u.userId, u.date) := by
        simp [recordKey, hc.1, hc.2]
      simp [updateRecords, if_pos hc, recordKey_applyUpdate, hkey]
    · have hmem : r' ∈ rs := by
        rcases List.mem_cons.mp hr' with hr' | hr'
        · exfalso
          subst hr'
          apply hc
          have h1 := congrArg Prod.fst hk
          have h2 := congrArg Prod.snd hk
          simp [recordKey] at h1 h2
          exact ⟨h1, h2⟩
        · exact hr'
      simp [updateRecords, if_neg hc, ih ⟨r', hmem, hk⟩]

theorem updateRecords_of_not_mem (freshId : String) (u : RecordUpdate) :
    ∀ l : List ProgressRecord, (∀ r ∈ l, recordKey r ≠ (u.userId, u.date)) →
      updateRecords freshId u l = l ++ [newRecord freshId u] := by
  intro l
  induction l with
  | nil => intro _; rfl
  | cons r rs ih =>
    intro h
    have hc : ¬(r.userId = u.userId ∧ r.date = u.date) := by
      intro hc
      exact h r (List.mem_cons_self r rs) (by simp [recordKey, hc.1, hc.2])
    simp [updateRecords, if_neg hc,
          ih (fun r' hr' => h r' (List.mem_cons_of_mem r hr'))]

/-- C6: when the records list has at most one entry per (userId, date) pair,
`handleUpdateRecord` preserves that invariant; an update matching an existing
record replaces it in place leaving the key sequence and the length
unchanged, and an update with a fresh pair appends exactly one record. -/
theorem claim6_update_record_unique (freshId : String) (u : RecordUpdate)
    (prev : AppState) (hinv : ((prev.records.map recordKey)).Nodup) :
    (((handleUpdateRecord freshId u prev).records.map recordKey)).Nodup ∧
    ((∃ r ∈ prev.records, recordKey r = (u.userId, u.date)) →
      (handleUpdateRecord freshId u prev).records.map recordKey
          = prev.records.map recordKey ∧
      (handleUpdateRecord freshId u prev).records.length = prev.records.length) ∧
    ((∀ r ∈ prev.records, recordKey r ≠ (u.userId, u.date)) →
      (handleUpdateRecord freshId u prev).records
          = prev.records ++ [newRecord freshId u]) := by
  refine ⟨?_, ?_, ?_⟩
  · by_cases hex : ∃ r ∈ prev.records, recordKey r = (u.userId, u.date)
    · rw [handleUpdateRecord, updateRecords_of_mem freshId u prev.records hex]
      exact hinv
    · push_neg at hex
      rw [handleUpdateRecord, updateRecords_of_not_mem freshId u prev.records hex]
      have hk : (u.userId, u.date) ∉ prev.records.map recordKey := by
        intro hmem
        rcases List.mem_map.mp hmem with ⟨r, hr, hrk⟩
        exact hex r hr hrk
      simp [List.nodup_append, hinv, recordKey_newRecord, hk]
  · intro hex
    have h := updateRecords_of_mem freshId u prev.records hex
    refine ⟨h, ?_⟩
    have := congrArg List.length h
    simpa using this
  · intro hnone
    exact congrArg (fun l => { prev with records := l }.records)
      (updateRecords_of_not_mem freshId u prev.records hnone)

/-- Witness for C6: inserting into the empty default records list appends
exactly one record. -/
theorem claim6_witness :
    (handleUpdateRecord "r1" ⟨none, "u1", "2024-05-01", none, none, none, none, none⟩
        defaultState).records
      = defaultState.records
          ++ [newRecord "r1" ⟨none, "u1", "2024-05-01", none, none, none, none, none⟩] :=
  (claim6_update_record_unique "r1"
      ⟨none, "u1", "2024-05-01", none, none, none, none, none⟩
      defaultState (by simp [defaultState])).2.2 (by simp [defaultState])

/-- C8: deserializing the serialization of any AppState yields it back, and
consequently the blob `saveState` writes to the local cache, read back
through the local-cache path of `loadState`, equals the original state. -/
theorem claim8_serialize_roundtrip (s : AppState) :
    decodeAppState (encodeAppState s) = some s ∧
    (∀ (remote : String → RemoteSelect) (store : LocalStore) (userId : String),
      userId ≠ "" →
      loadState false remote ((saveState false true store userId s).1) userId = s) := by
  refine ⟨decodeAppState_encodeAppState s, ?_⟩
  intro remote store userId huser
  simp [loadState, saveState, huser, LocalStore.setItem, LocalStore.getItem,
        decodeAppState_encodeAppState]

/-- Witness for C8: the default state survives the save-then-load cycle. -/
theorem claim8_witness :
    decodeAppState (encodeAppState defaultState) = some defaultState ∧
    loadState false (fun _ => RemoteSelect.failed)
        ((saveState false true emptyStore "u1" defaultState).1) "u1" = defaultState :=
  ⟨(claim8_serialize_roundtrip defaultState).1,
   (claim8_serialize_roundtrip defaultState).2 (fun _ => RemoteSelect.failed)
     emptyStore "u1" (by decide)⟩

/-- C9: `handleSendMessage` leaves the state unchanged when nobody is signed
in or when the content trims to empty with no attachment, and otherwise
appends exactly one message while leaving every other field of the state
unchanged. -/
theorem claim9_send_message_frame (freshId timestamp receiverId content : String)
    (att : Option Attachment) (prev : AppState) :
    (prev.currentUser = none →
      handleSendMessage freshId timestamp receiverId content att prev = prev) ∧
    (content.trim = "" ∧ att = none →
      handleSendMessage freshId timestamp receiverId content att prev = prev) ∧
    (∀ cu, prev.currentUser = some cu → ¬(content.trim = "" ∧ att = none) →
      (handleSendMessage freshId timestamp receiverId content att prev).users
          = prev.users ∧
      (handleSendMessage freshId timestamp receiverId content att prev).tasks
          = prev.tasks ∧
      (handleSendMessage freshId timestamp receiverId content att prev).records
          = prev.records ∧
      (handleSendMessage freshId timestamp receiverId content att prev).groups
          = prev.groups ∧
      (handleSendMessage freshId timestamp receiverId content att prev).statuses
          = prev.statuses ∧
      (handleSendMessage freshId timestamp receiverId content att prev).currentUser
          = prev.currentUser ∧
      (handleSendMessage freshId timestamp receiverId content att prev).messages
          = prev.messages ++
            [{ id := freshId, senderId := cu.id, receiverId := receiverId,
               content := content, attachment := att, timestamp := timestamp }]) := by
  refine ⟨?_, ?_, ?_⟩
  · intro h
    simp [handleSendMessage, h]
  · intro h
    cases hcu : prev.currentUser with
    | none => simp [handleSendMessage, hcu]
    | some cu => simp [handleSendMessage, hcu, if_pos h]
  · intro cu hcu hguard
    simp [handleSendMessage, hcu, if_neg hguard]

/-- Witness for C9: with no signed-in user the state is unchanged. -/
theorem claim9_witness :
    handleSendMessage "m1" "2024-05-01T00:00:00.000Z" "admin-1" "hello" none
        defaultState = defaultState :=
  (claim9_send_message_frame "m1" "2024-05-01T00:00:00.000Z" "admin-1" "hello"
      none defaultState).1 rfl

end BProgress
